import Mathlib

/-!
Verification of `eml_extractor.py` (SecurityDiscovery/eml-extractor).

The script is embedded shallowly: Python strings become Lean `String`,
byte payloads become `List Nat`, the filesystem that `extract_attachments`
touches becomes an explicit `FS` record threaded through the loop, and the
console/stdin interaction becomes a trace of `Event`s plus an answer
stream.  Randomness (`secrets.token_hex(10)`) is modelled by passing the
stream of random byte chunks as a parameter: `token_hex` itself is the
deterministic hex encoding that `secrets.token_hex` applies to the random
bytes it draws.
-/

namespace EmlExtractor

/-- Python `str.upper()` restricted to its ASCII action (the only inputs the
script compares against are the ASCII strings Y and y). A lowercase ASCII
letter is mapped to its uppercase form; every other character is kept. -/
def pyUpperChar (c : Char) : Char :=
  if 97 ≤ c.toNat ∧ c.toNat ≤ 122 then Char.ofNat (c.toNat - 32) else c

/-- Python `s.upper()` as the character-wise map of `pyUpperChar`. -/
def pyUpper (s : String) : String :=
  String.mk (s.data.map pyUpperChar)

/-- Lowercase hex digit of a value below 16, as produced by `bytes.hex()`. -/
def hexDigit (n : Nat) : Char :=
  if n < 10 then Char.ofNat (48 + n) else Char.ofNat (87 + n)

/-- Model of `secrets.token_hex` applied to an already-drawn chunk of random bytes:
each byte becomes two lowercase hex digits. `secrets.token_hex (10)` is
`token_hex b` for a drawn chunk `b` with `b.length = 10`. -/
def token_hex (bs : List Nat) : String :=
  String.mk (List.flatten (bs.map (fun b => [hexDigit (b / 16), hexDigit (b % 16)])))

/-- Index of the last occurrence of `c` in `cs`, or `-1` when absent —
the value Python `str.rfind` returns. -/
def lastIdxOf : List Char → Char → Int
  | [], _ => -1
  | c :: rest, t =>
    let r := lastIdxOf rest t
    if r ≥ 0 then r + 1 else if c = t then 0 else -1

/-- Model of `os.path.splitext` (posixpath): split at the last dot, provided the dot
comes after the last path separator and some character strictly between the
separator and that dot is not itself a dot (so dotfiles keep their name). -/
def splitext (p : String) : String × String :=
  let cs := p.data
  let sepIndex := lastIdxOf cs '/'
  let dotIndex := lastIdxOf cs '.'
  if sepIndex < dotIndex then
    if (List.take (dotIndex.toNat - (sepIndex + 1).toNat) (List.drop (sepIndex + 1).toNat cs)).any (fun c => c ≠ '.') then
      (String.mk (cs.take dotIndex.toNat), String.mk (cs.drop dotIndex.toNat))
    else (p, "")
  else (p, "")

/-- Python `c.isalpha() or c.isdigit() or c == ' '` (ASCII action): the
predicate of the list comprehension on line 25 of the script. -/
def keepAlnumSpace (c : Char) : Bool :=
  c.isAlpha || c.isDigit || c == ' '

/-- Python `str.rstrip()`: drop trailing whitespace. -/
def pyRstrip (s : String) : String :=
  String.mk ((s.data.reverse.dropWhile (fun c => c.isWhitespace)).reverse)

/-- Python truthiness of the value returned by `get_filename()`:
`None` and the empty string are falsy, any other string is kept.
`if not filename: continue` skips exactly the `none` results here. -/
def truthyFilename : Option String → Option String
  | none => none
  | some s => if s = "" then none else some s

/-- Lines 24–26 of the script, for one attachment: `os.path.splitext` on the
original name, the alphanumeric-filtered-and-rstripped variant (computed and
then immediately overwritten), and finally the token plus the original
extension. `tok` is the `secrets.token_hex(10)` result for this attachment. -/
def targetFilename (tok : String) (origName : String) : String :=
  let filenamea := (splitext origName).1
  let file_extension := (splitext origName).2
  let filename := pyRstrip (String.mk (origName.data.filter keepAlnumSpace))
  tok ++ file_extension

/-- One body part as the `email` library presents it to the script: its
(normalized) Content-Disposition value, the value `get_filename()` returns,
and the transfer-decoded payload `get_payload(decode=True)` returns. -/
structure Part where
  content_disposition : Option String
  filename : Option String
  payload : List Nat
  deriving DecidableEq, Repr

/-- Model of `EmailMessage.is_attachment()`: the Content-Disposition value is
exactly the token attachment (the library lowercases it). -/
def Part.is_attachment (p : Part) : Bool :=
  p.content_disposition == some "attachment"

/-- A parsed message, as far as the script reads it: the Subject header and
the parts that `iter_attachments()` yields. (Parts whose disposition is
attachment are never selected as the body, so they are always yielded;
inline or undisposed parts may be yielded too and are filtered out by the
script on line 16.) -/
structure Message where
  subject : Option String
  attachments_iter : List Part
  deriving DecidableEq, Repr

/-- The slice of the filesystem `extract_attachments` can touch: whether the
destination directory exists, and the files in it (name, bytes); lookups take
the most recent write, which is prepended. -/
structure FS where
  destExists : Bool
  files : List (String × List Nat)
  deriving DecidableEq, Repr

/-- Model of `filepath.exists()` for `destination / name`. -/
def FS.pathExists (fs : FS) (name : String) : Bool :=
  fs.files.any (fun e => e.1 == name)

/-- The bytes currently stored under `name` in the destination. -/
def FS.lookup (fs : FS) (name : String) : Option (List Nat) :=
  (fs.files.find? (fun e => e.1 == name)).map (fun e => e.2)

/-- Model of `save_attachment`: open `destination / name` in mode wb (create or
truncate) and write the payload. -/
def FS.write (fs : FS) (name : String) (payload : List Nat) : FS :=
  { fs with files := (name, payload) :: fs.files }

/-- Model of `basepath.mkdir(exist_ok=True)`: create the destination if missing. -/
def FS.mkdirDest (fs : FS) : FS :=
  { fs with destExists := true }

/-- Observable actions of one run, in order: console lines, the interactive
prompt (with the name it displays and the raw answer read), directory
creation, and file writes. -/
inductive Event where
  /-- Console line `PROCESSING FILE "<file>"` -/
  | processing (file : String)
  /-- Console line `>> No attachments found.` -/
  | noAttachments
  /-- Console line `>> Attachment found: <name>` -/
  | attachmentFound (name : String)
  /-- Prompt line `>> The file "<name>" already exists! Overwrite it (Y/n)?` and the
  answer read from stdin -/
  | promptOverwrite (name : String) (answer : String)
  /-- Console line `>> Skipping...` -/
  | skipping
  /-- Call of `mkdir(exist_ok=True)` on the destination -/
  | mkdirCall
  /-- Console line `>> Saving attachment to "<path>"` followed by the write -/
  | saving (name : String)
  /-- Console line `No EML files found!` -/
  | noEmlFiles
  /-- Console line `Done.` -/
  | done
  deriving DecidableEq, Repr

/-- The `for attachment in attachments` loop of `extract_attachments`
(lines 20–35). `rand` is the stream of byte chunks `secrets.token_hex(10)`
draws from, read at cursor `ri`; `answers` is the stream of stdin lines the
overwrite prompt reads, at cursor `ai`. Returns the filesystem after the
loop and the trace of events the loop produced. -/
def process_attachments (fs : FS) (atts : List Part) (rand : Nat → List Nat) (ri : Nat)
    (answers : Nat → String) (ai : Nat) : FS × List Event :=
  match atts with
  | [] => (fs, [])
  | attachment :: rest =>
    match truthyFilename attachment.filename with
    | none => process_attachments fs rest rand ri answers ai
    | some filename0 =>
      let filename := targetFilename (token_hex (rand ri)) filename0
      let payload := attachment.payload
      if fs.pathExists filename then
        let overwrite := answers ai
        if pyUpper overwrite = "Y" then
          let r := process_attachments (fs.write filename payload) rest rand (ri + 1) answers (ai + 1)
          (r.1, Event.attachmentFound filename :: Event.promptOverwrite filename overwrite ::
            Event.saving filename :: r.2)
        else
          let r := process_attachments fs rest rand (ri + 1) answers (ai + 1)
          (r.1, Event.attachmentFound filename :: Event.promptOverwrite filename overwrite ::
            Event.skipping :: r.2)
      else
        let r := process_attachments ((fs.mkdirDest).write filename payload) rest rand (ri + 1) answers ai
        (r.1, Event.attachmentFound filename :: Event.mkdirCall :: Event.saving filename :: r.2)

/-- Model of `extract_attachments(file, destination)`: print the processing line,
filter the yielded parts down to those with attachment disposition, report
when none remain, otherwise run the extraction loop. -/
def extract_attachments (file : String) (msg : Message) (rand : Nat → List Nat)
    (answers : Nat → String) (fs : FS) : FS × List Event :=
  let attachments := msg.attachments_iter.filter Part.is_attachment
  if attachments.isEmpty then
    (fs, [Event.processing file, Event.noAttachments])
  else
    let r := process_attachments fs attachments rand 0 answers 0
    (r.1, Event.processing file :: r.2)

/-- Kind of a directory entry: `pathlib` glob patterns do not restrict the
kind, so both appear in glob results. -/
inductive EntryKind where
  | file
  | dir
  deriving DecidableEq, Repr

/-- One entry somewhere below the scanned root directory: its kind and its
path as the non-empty list of name components relative to the root. -/
structure Entry where
  kind : EntryKind
  comps : List String
  deriving DecidableEq, Repr

/-- The name of the entry: its last path component. -/
def Entry.name (e : Entry) : String :=
  e.comps.getLastD ""

/-- Match by `fnmatch` of the fixed pattern `*.eml` against a name: the star matches
any (possibly empty) run of characters, so the pattern matches exactly the
names ending in `.eml` (a leading dot is not special in `pathlib` globs). -/
def matchesEmlPattern (name : String) : Bool :=
  List.isSuffixOf ".eml".data name.data

/-- Model of `get_eml_files_from(path, recursively)`: the result of `path.rglob`
on pattern `*.eml` when recursive — every entry anywhere below the root whose name matches —
and of `path.glob` on the same pattern otherwise — the matching entries directly
under the root (component depth one). `entries` is the subtree of the
scanned directory. -/
def get_eml_files_from (entries : List Entry) (recursively : Bool) : List Entry :=
  if recursively then
    entries.filter (fun e => matchesEmlPattern e.name)
  else
    entries.filter (fun e => e.comps.length == 1 && matchesEmlPattern e.name)

/-- Following the words of the spec, for comparison with the code: the
*files* with the `.eml` extension directly under the root. -/
def specEmlFilesDirect (entries : List Entry) : List Entry :=
  entries.filter (fun e =>
    e.kind == EntryKind.file && e.comps.length == 1 && matchesEmlPattern e.name)

/-- The parsed argument namespace of the script: `--source` and
`--destination` default to the current working directory, `--files`
defaults to `None`. -/
structure Args where
  source : String
  recursive : Bool
  files : Option (List String)
  destination : String
  deriving DecidableEq, Repr

/-- Model of `parse_arguments()` over the declarative parser built by
`get_argument_parser()`: `srcArg`/`filesArg`/`destArg` are the option
values present on the command line (already through `check_path` /
`check_file`, which reject bad paths before parsing finishes). The parser
puts `--source` and `--files` in a mutually exclusive group, so supplying
both is an argparse error and no `Args` namespace is produced; otherwise
absent options take their defaults (`Path.cwd()` for the two paths). -/
def parse_arguments (srcArg : Option String) (recArg : Bool)
    (filesArg : Option (List String)) (destArg : Option String) (cwd : String) :
    Except String Args :=
  if srcArg.isSome && filesArg.isSome then
    Except.error "argument -f/--files: not allowed with argument -s/--source"
  else
    Except.ok { source := srcArg.getD cwd, recursive := recArg,
                files := filesArg, destination := destArg.getD cwd }

/-- Line 109: `args.files or get_eml_files_from(args.source, args.recursive)`.
Python `or` takes the scan result when `args.files` is `None` or the empty
list (argparse `nargs` plus never yields an empty list). -/
def resolve_eml_files (files : Option (List String)) (discovered : List String) :
    List String :=
  match files with
  | none => discovered
  | some fs => if fs.isEmpty then discovered else fs

/-- The `for file in eml_files` loop of `main` plus the final print: each
file is handed to the extractor in order; `extract` returns the events the
extraction printed and `none` on normal return or `some e` when it raised
exception `e`, which propagates out of `main` uncaught, so the loop stops
and `Done.` is not printed. When every file returns normally, `Done.` is
printed after the loop. -/
def main_loop (extract : String → List Event × Option E) : List String →
    List Event × Option E
  | [] => ([Event.done], none)
  | f :: rest =>
    let r := extract f
    match r.2 with
    | some e => (r.1, some e)
    | none =>
      let rr := main_loop extract rest
      (r.1 ++ rr.1, rr.2)

/-- Model of `main()`: parse the arguments; on an argparse error the process exits
before any file is touched (no events). Otherwise resolve the file set
(explicit `--files` list, or the directory scan), print the no-files notice
when it is empty, and run the extraction loop. `discover` is the filesystem
behind `get_eml_files_from` (source directory and flag to the found paths);
`extract` is the per-file extraction as in `main_loop`. -/
def main_run (srcArg : Option String) (recArg : Bool)
    (filesArg : Option (List String)) (destArg : Option String) (cwd : String)
    (discover : String → Bool → List String)
    (extract : String → List Event × Option E) :
    List Event × Option (Except String E) :=
  match parse_arguments srcArg recArg filesArg destArg cwd with
  | Except.error msg => ([], some (Except.error msg))
  | Except.ok args =>
    let eml_files := resolve_eml_files args.files (discover args.source args.recursive)
    let pre := if eml_files.isEmpty then [Event.noEmlFiles] else []
    let r := main_loop extract eml_files
    (pre ++ r.1, r.2.map Except.ok)

/-- Lowercase hexadecimal digit, as `bytes.hex()` emits them. -/
def isLowerHexDigit (c : Char) : Bool :=
  (('0' ≤ c) && (c ≤ '9')) || (('a' ≤ c) && (c ≤ 'f'))

/-- The name displayed or written by an event, when it has one. -/
def Event.nameOf : Event → Option String
  | Event.attachmentFound n => some n
  | Event.promptOverwrite n _ => some n
  | Event.saving n => some n
  | _ => none

/-- Concrete message with a single attachment named report.pdf. -/
def partReport : Part :=
  { content_disposition := some "attachment", filename := some "report.pdf",
    payload := [1, 2, 3] }

/-- Concrete message holding just `partReport`. -/
def msgReport : Message :=
  { subject := some "Hello", attachments_iter := [partReport] }

/-- Concrete part with attachment disposition but no declared filename. -/
def partNoName : Part :=
  { content_disposition := some "attachment", filename := none, payload := [4, 5] }

/-- Concrete message whose only part is attachment-disposed but nameless. -/
def msgNoName : Message :=
  { subject := none, attachments_iter := [partNoName] }

/-- Concrete message with no parts at all. -/
def msgEmpty : Message :=
  { subject := none, attachments_iter := [] }

/-- Concrete random stream: every drawn chunk is the ten bytes 0..9. -/
def randTen : Nat → List Nat := fun _ => [0, 1, 2, 3, 4, 5, 6, 7, 8, 9]

/-- Concrete stdin stream always answering n. -/
def ansNo : Nat → String := fun _ => "n"

/-- Concrete stdin stream always answering Y. -/
def ansYes : Nat → String := fun _ => "Y"

/-- Concrete empty destination state. -/
def fs0 : FS := { destExists := false, files := [] }

/-- Concrete directory entry: a subdirectory named foo.eml directly under
the scanned root. -/
def dirFooEml : Entry := { kind := EntryKind.dir, comps := ["foo.eml"] }

/-- Concrete per-file extraction outcome for exercising the driver loop:
the file b.eml raises error 7, every other file returns normally after
printing its banner. -/
def extractOutcome : String → List Event × Option Nat :=
  fun f => ([Event.processing f], if f = "b.eml" then some 7 else none)

/-- Concrete destination already holding the file the token stream
`randTen` will aim at. -/
def fsCollide : FS :=
  { destExists := true, files := [("00010203040506070809.pdf", [9, 9])] }

section Theorems

theorem char_eq_of_toNat_eq {a b : Char} (h : a.toNat = b.toNat) : a = b :=
  Char.ext (UInt32.toNat.inj h)

theorem pyUpperChar_eq_Y (c : Char) : pyUpperChar c = 'Y' ↔ c = 'Y' ∨ c = 'y' := by
  have hY : c = 'Y' ↔ c.toNat = 89 := by
    constructor
    · intro h; subst h; rfl
    · intro h; exact char_eq_of_toNat_eq h
  have hy : c = 'y' ↔ c.toNat = 121 := by
    constructor
    · intro h; subst h; rfl
    · intro h; exact char_eq_of_toNat_eq h
  unfold pyUpperChar
  split
  case isTrue h =>
    obtain ⟨h1, h2⟩ := h
    rw [hY, hy]
    have hofY : Char.ofNat (c.toNat - 32) = 'Y' ↔ (Char.ofNat (c.toNat - 32)).toNat = 89 := by
      constructor
      · intro h; rw [h]; rfl
      · intro h; exact char_eq_of_toNat_eq h
    rw [hofY]
    generalize c.toNat = n at h1 h2 ⊢
    interval_cases n <;> decide
  case isFalse h =>
    constructor
    · exact Or.inl
    · rintro (hc | hc)
      · exact hc
      · subst hc
        exact absurd ⟨by decide, by decide⟩ h

theorem pyUpper_eq_Y_iff (s : String) : pyUpper s = "Y" ↔ s = "Y" ∨ s = "y" := by
  constructor
  · intro h
    obtain ⟨data⟩ := s
    have hd : data.map pyUpperChar = ['Y'] := by
      have h2 := congrArg String.data h
      simpa [pyUpper] using h2
    cases data with
    | nil => simp at hd
    | cons c rest =>
      cases rest with
      | nil =>
        have hc : pyUpperChar c = 'Y' := by simpa using hd
        rcases (pyUpperChar_eq_Y c).mp hc with h1 | h1
        · left; subst h1; rfl
        · right; subst h1; rfl
      | cons d rest2 => simp at hd
  · rintro (rfl | rfl) <;> decide

theorem targetFilename_eq (tok name : String) :
    targetFilename tok name = tok ++ (splitext name).2 := rfl

theorem token_hex_data (bs : List Nat) :
    (token_hex bs).data =
      List.flatten (bs.map fun b => [hexDigit (b / 16), hexDigit (b % 16)]) := rfl

theorem token_hex_length (bs : List Nat) : (token_hex bs).length = 2 * bs.length := by
  show (List.flatten (bs.map fun b => [hexDigit (b / 16), hexDigit (b % 16)])).length
      = 2 * bs.length
  induction bs with
  | nil => rfl
  | cons b rest ih =>
    simp only [List.map_cons, List.flatten_cons, List.length_append, ih, List.length_cons,
      List.length_nil]
    omega

theorem hexDigit_isLowerHexDigit : ∀ n < 16, isLowerHexDigit (hexDigit n) = true := by decide

theorem token_hex_chars (bs : List Nat) (h : ∀ b ∈ bs, b < 256) :
    ∀ c ∈ (token_hex bs).data, isLowerHexDigit c = true := by
  rw [token_hex_data]
  induction bs with
  | nil => intro c hc; simp at hc
  | cons b rest ih =>
    intro c hc
    simp only [List.map_cons, List.flatten_cons, List.mem_append, List.mem_cons,
      List.not_mem_nil, or_false] at hc
    rcases hc with (rfl | rfl) | hc
    · exact hexDigit_isLowerHexDigit _ (Nat.div_lt_of_lt_mul (by
        have := h b (by simp); omega))
    · exact hexDigit_isLowerHexDigit _ (Nat.mod_lt _ (by omega))
    · exact ih (fun x hx => h x (List.mem_cons_of_mem _ hx)) c hc

theorem string_ne_of_length_ne {s t : String} (h : s.length ≠ t.length) : s ≠ t :=
  fun hEq => h (congrArg String.length hEq)

theorem FS.pathExists_write (fs : FS) (m n : String) (p : List Nat) :
    (fs.write m p).pathExists n = ((m == n) || fs.pathExists n) := rfl

theorem FS.pathExists_mkdirDest (fs : FS) (n : String) :
    (fs.mkdirDest).pathExists n = fs.pathExists n := rfl

theorem FS.lookup_write_ne (fs : FS) {m n : String} (h : m ≠ n) (p : List Nat) :
    (fs.write m p).lookup n = fs.lookup n := by
  have hb : (m == n) = false := beq_eq_false_iff_ne.mpr h
  simp [FS.lookup, FS.write, List.find?, hb]

theorem FS.lookup_mkdirDest (fs : FS) (n : String) :
    (fs.mkdirDest).lookup n = fs.lookup n := rfl

/-- Every event the attachment loop emits is one of the five per-attachment
actions; in particular it never prints the no-attachments report, the
processing banner, the no-files notice, or the final Done line. -/
theorem process_attachments_events_shape (atts : List Part) (fs : FS)
    (rand : Nat → List Nat) (ri : Nat) (answers : Nat → String) (ai : Nat) :
    ∀ e ∈ (process_attachments fs atts rand ri answers ai).2,
      (∃ n, e = Event.attachmentFound n) ∨ (∃ n a, e = Event.promptOverwrite n a) ∨
      e = Event.skipping ∨ e = Event.mkdirCall ∨ (∃ n, e = Event.saving n) := by
  induction atts generalizing fs ri ai with
  | nil => intro e he; simp [process_attachments] at he
  | cons a rest ih =>
    intro e he
    rw [process_attachments] at he
    rcases hFn : truthyFilename a.filename with _ | F
    · rw [hFn] at he
      exact ih fs ri ai e he
    · rw [hFn] at he
      simp only at he
      split at he
      · split at he
        · simp only [List.mem_cons] at he; rcases he with rfl | rfl | rfl | he
          · exact Or.inl ⟨_, rfl⟩
          · exact Or.inr (Or.inl ⟨_, _, rfl⟩)
          · exact Or.inr (Or.inr (Or.inr (Or.inr ⟨_, rfl⟩)))
          · exact ih _ _ _ e he
        · simp only [List.mem_cons] at he; rcases he with rfl | rfl | rfl | he
          · exact Or.inl ⟨_, rfl⟩
          · exact Or.inr (Or.inl ⟨_, _, rfl⟩)
          · exact Or.inr (Or.inr (Or.inl rfl))
          · exact ih _ _ _ e he
      · simp only [List.mem_cons] at he; rcases he with rfl | rfl | rfl | he
        · exact Or.inl ⟨_, rfl⟩
        · exact Or.inr (Or.inr (Or.inr (Or.inl rfl)))
        · exact Or.inr (Or.inr (Or.inr (Or.inr ⟨_, rfl⟩)))
        · exact ih _ _ _ e he

/-- Provenance of every name the loop displays or writes: it is the hex
token drawn for some attachment of the list, concatenated with the
`splitext` extension of the original filename of that attachment. -/
theorem process_attachments_name_spec (atts : List Part) (fs : FS)
    (rand : Nat → List Nat) (ri : Nat) (answers : Nat → String) (ai : Nat) :
    ∀ e ∈ (process_attachments fs atts rand ri answers ai).2, ∀ n,
      e.nameOf = some n →
      ∃ p ∈ atts, ∃ F, truthyFilename p.filename = some F ∧
        ∃ i, n = token_hex (rand i) ++ (splitext F).2 := by
  induction atts generalizing fs ri ai with
  | nil => intro e he; simp [process_attachments] at he
  | cons a rest ih =>
    intro e he n hn
    rw [process_attachments] at he
    rcases hFn : truthyFilename a.filename with _ | F
    · rw [hFn] at he
      obtain ⟨p, hp, hrest⟩ := ih fs ri ai e he n hn
      exact ⟨p, List.mem_cons_of_mem _ hp, hrest⟩
    · rw [hFn] at he
      simp only at he
      have hhead : ∀ a0, e = Event.attachmentFound (targetFilename (token_hex (rand ri)) F) ∨
          e = Event.promptOverwrite (targetFilename (token_hex (rand ri)) F) a0 ∨
          e = Event.saving (targetFilename (token_hex (rand ri)) F) →
          ∃ p ∈ a :: rest, ∃ F0, truthyFilename p.filename = some F0 ∧
            ∃ i, n = token_hex (rand i) ++ (splitext F0).2 := by
        intro a0 hcase
        refine ⟨a, List.mem_cons_self a rest, F, hFn, ri, ?_⟩
        have hn2 : n = targetFilename (token_hex (rand ri)) F := by
          rcases hcase with rfl | rfl | rfl <;>
            simpa [Event.nameOf] using hn.symm
        rw [hn2, targetFilename_eq]
      have htail : e ∈ (process_attachments fs rest rand (ri + 1) answers (ai + 1)).2 ∨
          e ∈ (process_attachments ((fs.write (targetFilename (token_hex (rand ri)) F)
              a.payload)) rest rand (ri + 1) answers (ai + 1)).2 ∨
          e ∈ (process_attachments ((fs.mkdirDest).write
              (targetFilename (token_hex (rand ri)) F) a.payload) rest rand (ri + 1)
              answers ai).2 →
          ∃ p ∈ a :: rest, ∃ F0, truthyFilename p.filename = some F0 ∧
            ∃ i, n = token_hex (rand i) ++ (splitext F0).2 := by
        intro hcase
        have : ∃ p ∈ rest, ∃ F0, truthyFilename p.filename = some F0 ∧
            ∃ i, n = token_hex (rand i) ++ (splitext F0).2 := by
          rcases hcase with h | h | h
          · exact ih _ _ _ e h n hn
          · exact ih _ _ _ e h n hn
          · exact ih _ _ _ e h n hn
        obtain ⟨p, hp, hrest⟩ := this
        exact ⟨p, List.mem_cons_of_mem _ hp, hrest⟩
      split at he
      · split at he
        · simp only [List.mem_cons] at he; rcases he with rfl | rfl | rfl | he
          · exact hhead (answers ai) (Or.inl rfl)
          · exact hhead _ (Or.inr (Or.inl rfl))
          · exact hhead (answers ai) (Or.inr (Or.inr rfl))
          · exact htail (Or.inr (Or.inl he))
        · simp only [List.mem_cons] at he; rcases he with rfl | rfl | rfl | he
          · exact hhead (answers ai) (Or.inl rfl)
          · exact hhead _ (Or.inr (Or.inl rfl))
          · simp [Event.nameOf] at hn
          · exact htail (Or.inl he)
      · simp only [List.mem_cons] at he; rcases he with rfl | rfl | rfl | he
        · exact hhead (answers ai) (Or.inl rfl)
        · simp [Event.nameOf] at hn
        · exact hhead (answers ai) (Or.inr (Or.inr rfl))
        · exact htail (Or.inr (Or.inr he))

/-- When no attachment of the list declares a (truthy) filename, the loop
is a no-op: every iteration hits the `continue`. -/
theorem process_attachments_no_truthy (atts : List Part) (fs : FS)
    (rand : Nat → List Nat) (ri : Nat) (answers : Nat → String) (ai : Nat)
    (h : ∀ p ∈ atts, truthyFilename p.filename = none) :
    process_attachments fs atts rand ri answers ai = (fs, []) := by
  induction atts generalizing fs ri ai with
  | nil => rfl
  | cons a rest ih =>
    rw [process_attachments]
    rcases hFn : truthyFilename a.filename with _ | F
    · exact ih fs ri ai (fun p hp => h p (List.mem_cons_of_mem _ hp))
    · exact absurd (h a (List.mem_cons_self a rest)) (by simp [hFn])

/-- If every stdin answer declines the overwrite prompt, a file that exists
when the loop starts still exists afterwards and still holds the same
bytes: declined attachments write nothing, and fresh writes can only hit
names that did not exist. -/
theorem process_attachments_preserves_existing (atts : List Part) (fs : FS)
    (rand : Nat → List Nat) (ri : Nat) (answers : Nat → String) (ai : Nat)
    (hdecl : ∀ i, pyUpper (answers i) ≠ "Y") (n : String)
    (hex : fs.pathExists n = true) :
    (process_attachments fs atts rand ri answers ai).1.pathExists n = true ∧
    (process_attachments fs atts rand ri answers ai).1.lookup n = fs.lookup n := by
  induction atts generalizing fs ri ai with
  | nil => exact ⟨hex, rfl⟩
  | cons a rest ih =>
    rw [process_attachments]
    rcases hFn : truthyFilename a.filename with _ | F
    · exact ih fs ri ai hex
    · simp only
      split
      · rw [if_neg (hdecl ai)]
        exact ih fs (ri + 1) (ai + 1) hex
      case isFalse hne =>
        set m := targetFilename (token_hex (rand ri)) F with hm
        have hmn : m ≠ n := by
          intro hEq
          rw [hEq] at hne
          exact hne hex
        have hex2 : ((fs.mkdirDest).write m a.payload).pathExists n = true := by
          rw [FS.pathExists_write, FS.pathExists_mkdirDest]
          simp [hex]
        obtain ⟨h1, h2⟩ := ih ((fs.mkdirDest).write m a.payload) (ri + 1) ai hex2
        refine ⟨h1, ?_⟩
        rw [h2, FS.lookup_write_ne _ hmn, FS.lookup_mkdirDest]

/-- The loop leaves the filesystem slice — destination-directory flag
included — completely unchanged when it saves nothing, and it only calls
`mkdir` in the branch that immediately saves. -/
theorem process_attachments_no_saving (atts : List Part) (fs : FS)
    (rand : Nat → List Nat) (ri : Nat) (answers : Nat → String) (ai : Nat) :
    ((∀ n, Event.saving n ∉ (process_attachments fs atts rand ri answers ai).2) →
      (process_attachments fs atts rand ri answers ai).1 = fs ∧
      Event.mkdirCall ∉ (process_attachments fs atts rand ri answers ai).2) ∧
    (Event.mkdirCall ∈ (process_attachments fs atts rand ri answers ai).2 →
      ∃ n, Event.saving n ∈ (process_attachments fs atts rand ri answers ai).2) := by
  induction atts generalizing fs ri ai with
  | nil => exact ⟨fun _ => ⟨rfl, by simp [process_attachments]⟩, by simp [process_attachments]⟩
  | cons a rest ih =>
    rw [process_attachments]
    rcases hFn : truthyFilename a.filename with _ | F
    · exact ih fs ri ai
    · simp only
      split
      · split
        · constructor
          · intro hno
            exact absurd (by simp : Event.saving (targetFilename (token_hex (rand ri)) F) ∈ _)
              (hno (targetFilename (token_hex (rand ri)) F))
          · intro _
            exact ⟨targetFilename (token_hex (rand ri)) F, by simp⟩
        · constructor
          · intro hno
            have hno2 : ∀ n, Event.saving n ∉
                (process_attachments fs rest rand (ri + 1) answers (ai + 1)).2 := by
              intro n hn
              exact hno n (by simp [hn])
            obtain ⟨h1, h2⟩ := (ih fs (ri + 1) (ai + 1)).1 hno2
            refine ⟨h1, ?_⟩
            simp only [List.mem_cons]
            push_neg
            exact ⟨by simp, by simp, by simp, h2⟩
          · intro hmk
            simp only [List.mem_cons] at hmk
            rcases hmk with h | h | h | h
            · exact absurd h (by simp)
            · exact absurd h (by simp)
            · exact absurd h (by simp)
            · obtain ⟨n, hn⟩ := (ih fs (ri + 1) (ai + 1)).2 h
              exact ⟨n, by simp [hn]⟩
      · constructor
        · intro hno
          exact absurd (by simp : Event.saving (targetFilename (token_hex (rand ri)) F) ∈ _)
            (hno (targetFilename (token_hex (rand ri)) F))
        · intro _
          exact ⟨targetFilename (token_hex (rand ri)) F, by simp⟩

/-- C1: every file written by `extract_attachments` is named by a freshly
drawn 20-character hexadecimal token followed by the extension of the
original attachment filename — the extension is preserved, the base name is
fully replaced; for an attachment named report.pdf the extension is exactly
.pdf and the 20-character hex base is distinct from report. -/
theorem saved_name_is_fresh_token_plus_extension (file : String) (msg : Message)
    (rand : Nat → List Nat) (answers : Nat → String) (fs : FS)
    (hlen : ∀ i, (rand i).length = 10)
    (hbytes : ∀ i, ∀ b ∈ rand i, b < 256)
    (n : String) (hn : Event.saving n ∈ (extract_attachments file msg rand answers fs).2) :
    ∃ p ∈ msg.attachments_iter, p.is_attachment = true ∧
      ∃ F, truthyFilename p.filename = some F ∧
      ∃ i, n = token_hex (rand i) ++ (splitext F).2 ∧
        (token_hex (rand i)).length = 20 ∧
        (∀ c ∈ (token_hex (rand i)).data, isLowerHexDigit c = true) ∧
        (F = "report.pdf" → (splitext F).2 = ".pdf" ∧ token_hex (rand i) ≠ "report") := by
  simp only [extract_attachments] at hn
  split at hn
  · simp at hn
  · simp only [List.mem_cons] at hn
    rcases hn with hn | hn
    · exact absurd hn (by simp)
    · have hspec := process_attachments_name_spec
        (msg.attachments_iter.filter Part.is_attachment) fs rand 0 answers 0
        (Event.saving n) hn n rfl
      obtain ⟨p, hp, F, hF, i, hEq⟩ := hspec
      rw [List.mem_filter] at hp
      refine ⟨p, hp.1, hp.2, F, hF, i, hEq, ?_, token_hex_chars _ (hbytes i), ?_⟩
      · rw [token_hex_length, hlen i]
      · intro hrep
        subst hrep
        refine ⟨rfl, string_ne_of_length_ne ?_⟩
        rw [token_hex_length, hlen i]
        decide

/-- Witness for C1: the concrete report.pdf message, the all-zero-to-nine
byte stream, an empty destination. -/
theorem saved_name_is_fresh_token_plus_extension_witness :
    Event.saving "00010203040506070809.pdf" ∈
      (extract_attachments "msg.eml" msgReport randTen ansNo fs0).2 ∧
    ∃ p ∈ msgReport.attachments_iter, p.is_attachment = true ∧
      ∃ F, truthyFilename p.filename = some F ∧
      ∃ i, "00010203040506070809.pdf" = token_hex (randTen i) ++ (splitext F).2 ∧
        (token_hex (randTen i)).length = 20 ∧
        (∀ c ∈ (token_hex (randTen i)).data, isLowerHexDigit c = true) ∧
        (F = "report.pdf" → (splitext F).2 = ".pdf" ∧ token_hex (randTen i) ≠ "report") :=
  ⟨by decide,
   saved_name_is_fresh_token_plus_extension "msg.eml" msgReport randTen ansNo fs0
     (fun _ => rfl)
     (fun _ => show ∀ b ∈ [0, 1, 2, 3, 4, 5, 6, 7, 8, 9], b < 256 from by decide)
     "00010203040506070809.pdf" (by decide)⟩

/-- C2 counterexample: the message whose only part is attachment-disposed
but declares no filename has no true attachment, yet the code does not
print the no-attachments report (the report is keyed on the disposition
filter alone, before the filename check). -/
theorem no_attachments_report_counterexample :
    (¬ ∃ p ∈ msgNoName.attachments_iter,
        p.is_attachment = true ∧ truthyFilename p.filename ≠ none) ∧
    Event.noAttachments ∉ (extract_attachments "msg.eml" msgNoName randTen ansNo fs0).2 ∧
    (extract_attachments "msg.eml" msgNoName randTen ansNo fs0).1 = fs0 := by decide

/-- C2 (amended): the no-attachments report is printed exactly when the
message has no attachment-disposed part at all; and whenever the message
has no true attachment (attachment disposition and a declared filename),
no filesystem write is performed — but in that case the report appears
only if even the disposition filter came up empty. -/
theorem no_attachments_report_iff (file : String) (msg : Message)
    (rand : Nat → List Nat) (answers : Nat → String) (fs : FS) :
    (Event.noAttachments ∈ (extract_attachments file msg rand answers fs).2 ↔
      msg.attachments_iter.filter Part.is_attachment = []) ∧
    ((∀ p ∈ msg.attachments_iter, p.is_attachment = true → truthyFilename p.filename = none) →
      (extract_attachments file msg rand answers fs).1 = fs ∧
      ∀ n, Event.saving n ∉ (extract_attachments file msg rand answers fs).2) := by
  constructor
  · simp only [extract_attachments]
    split
    case isTrue h => simp [List.isEmpty_iff.mp h]
    case isFalse h =>
      constructor
      · intro hmem
        simp only [List.mem_cons] at hmem
        rcases hmem with h1 | h1
        · exact absurd h1 (by simp)
        · have hsh := process_attachments_events_shape
            (msg.attachments_iter.filter Part.is_attachment) fs rand 0 answers 0 _ h1
          rcases hsh with ⟨m, hne⟩ | ⟨m, a0, hne⟩ | hne | hne | ⟨m, hne⟩ <;> simp at hne
      · intro hfil
        exact absurd (by rw [hfil]; rfl) h
  · intro hno
    have hall : ∀ p ∈ msg.attachments_iter.filter Part.is_attachment,
        truthyFilename p.filename = none := by
      intro p hp
      rw [List.mem_filter] at hp
      exact hno p hp.1 hp.2
    simp only [extract_attachments]
    split
    · exact ⟨rfl, by simp⟩
    · rw [process_attachments_no_truthy _ fs rand 0 answers 0 hall]
      exact ⟨rfl, by simp⟩

/-- Witness for the C2 amended theorem at a message with one inline and one
nameless attachment-disposed part. -/
theorem no_attachments_report_iff_witness :
    (Event.noAttachments ∈ (extract_attachments "msg.eml" msgNoName randTen ansNo fs0).2 ↔
      msgNoName.attachments_iter.filter Part.is_attachment = []) ∧
    ((extract_attachments "msg.eml" msgNoName randTen ansNo fs0).1 = fs0 ∧
      ∀ n, Event.saving n ∉ (extract_attachments "msg.eml" msgNoName randTen ansNo fs0).2) :=
  ⟨(no_attachments_report_iff "msg.eml" msgNoName randTen ansNo fs0).1,
   (no_attachments_report_iff "msg.eml" msgNoName randTen ansNo fs0).2 (by decide)⟩

/-- C3: when the target path already exists the loop prompts, and exactly
the answers Y and y overwrite the file with the decoded payload; every
other answer skips the attachment, leaving the filesystem unchanged. -/
theorem overwrite_prompt_accepts_exactly_Y_y (fs : FS) (a : Part) (F : String)
    (rand : Nat → List Nat) (answers : Nat → String)
    (hF : truthyFilename a.filename = some F)
    (hex : fs.pathExists (targetFilename (token_hex (rand 0)) F) = true) :
    (pyUpper (answers 0) = "Y" ↔ answers 0 = "Y" ∨ answers 0 = "y") ∧
    process_attachments fs [a] rand 0 answers 0 =
      (if answers 0 = "Y" ∨ answers 0 = "y" then
        (fs.write (targetFilename (token_hex (rand 0)) F) a.payload,
          [Event.attachmentFound (targetFilename (token_hex (rand 0)) F),
           Event.promptOverwrite (targetFilename (token_hex (rand 0)) F) (answers 0),
           Event.saving (targetFilename (token_hex (rand 0)) F)])
      else
        (fs,
          [Event.attachmentFound (targetFilename (token_hex (rand 0)) F),
           Event.promptOverwrite (targetFilename (token_hex (rand 0)) F) (answers 0),
           Event.skipping])) := by
  refine ⟨pyUpper_eq_Y_iff _, ?_⟩
  by_cases hA : answers 0 = "Y" ∨ answers 0 = "y"
  · rw [if_pos hA, process_attachments, hF]
    simp only
    rw [if_pos hex, if_pos ((pyUpper_eq_Y_iff _).mpr hA)]
    simp [process_attachments]
  · rw [if_neg hA, process_attachments, hF]
    simp only
    rw [if_pos hex, if_neg (fun hY => hA ((pyUpper_eq_Y_iff _).mp hY))]
    simp [process_attachments]

/-- Witness for C3: the report.pdf attachment against a destination that
already holds the target name, with answer Y. -/
theorem overwrite_prompt_accepts_exactly_Y_y_witness :
    (pyUpper (ansYes 0) = "Y" ↔ ansYes 0 = "Y" ∨ ansYes 0 = "y") ∧
    process_attachments fsCollide [partReport] randTen 0 ansYes 0 =
      (if ansYes 0 = "Y" ∨ ansYes 0 = "y" then
        (fsCollide.write (targetFilename (token_hex (randTen 0)) "report.pdf")
            partReport.payload,
          [Event.attachmentFound (targetFilename (token_hex (randTen 0)) "report.pdf"),
           Event.promptOverwrite (targetFilename (token_hex (randTen 0)) "report.pdf")
             (ansYes 0),
           Event.saving (targetFilename (token_hex (randTen 0)) "report.pdf")])
      else
        (fsCollide,
          [Event.attachmentFound (targetFilename (token_hex (randTen 0)) "report.pdf"),
           Event.promptOverwrite (targetFilename (token_hex (randTen 0)) "report.pdf")
             (ansYes 0),
           Event.skipping])) :=
  overwrite_prompt_accepts_exactly_Y_y fsCollide partReport "report.pdf" randTen ansYes
    (by decide) (by decide)

/-- C4: when every prompt answer declines, a file that existed in the
destination before the run still exists afterwards with the same bytes —
declined overwrites write nothing, and the fresh-name writes of the run can
only create names that did not exist. -/
theorem declined_overwrite_preserves_existing_files (file : String) (msg : Message)
    (rand : Nat → List Nat) (answers : Nat → String) (fs : FS)
    (hdecl : ∀ i, pyUpper (answers i) ≠ "Y") (n : String)
    (hex : fs.pathExists n = true) :
    (extract_attachments file msg rand answers fs).1.pathExists n = true ∧
    (extract_attachments file msg rand answers fs).1.lookup n = fs.lookup n := by
  simp only [extract_attachments]
  split
  · exact ⟨hex, rfl⟩
  · exact process_attachments_preserves_existing _ fs rand 0 answers 0 hdecl n hex

/-- Witness for C4: extract the report.pdf message twice into the same
destination with the same token stream; the second run collides, the
prompt is declined, and the file of the first run is byte-identical. -/
theorem declined_overwrite_preserves_existing_files_witness :
    (extract_attachments "msg.eml" msgReport randTen ansNo
        (extract_attachments "msg.eml" msgReport randTen ansNo fs0).1).1.lookup
        "00010203040506070809.pdf" =
      (extract_attachments "msg.eml" msgReport randTen ansNo fs0).1.lookup
        "00010203040506070809.pdf" :=
  (declined_overwrite_preserves_existing_files "msg.eml" msgReport randTen ansNo
    (extract_attachments "msg.eml" msgReport randTen ansNo fs0).1
    (fun _ => show pyUpper "n" ≠ "Y" from by decide)
    "00010203040506070809.pdf" (by decide)).2

/-- C5 counterexample: a *directory* named foo.eml directly under the root
is returned by the non-recursive scan — `pathlib` glob patterns do not
restrict the entry kind — so the result is not exactly the matching
*files*. -/
theorem discovery_returns_nonfiles_counterexample :
    get_eml_files_from [dirFooEml] false ≠ specEmlFilesDirect [dirFooEml] ∧
    dirFooEml ∈ get_eml_files_from [dirFooEml] false ∧
    dirFooEml.kind ≠ EntryKind.file := by decide

/-- C5 (amended): non-recursive discovery returns exactly the entries
(files or directories) whose name matches the pattern `*.eml` directly
under the root, never deeper; recursive discovery returns every such match
anywhere in the subtree; when nothing matches the result is the empty
list, not an error. -/
theorem discovery_characterization (entries : List Entry) :
    (∀ e, e ∈ get_eml_files_from entries false ↔
      e ∈ entries ∧ e.comps.length = 1 ∧ matchesEmlPattern e.name = true) ∧
    (∀ e, e ∈ get_eml_files_from entries true ↔
      e ∈ entries ∧ matchesEmlPattern e.name = true) ∧
    ((∀ e ∈ entries, matchesEmlPattern e.name = false) →
      ∀ r, get_eml_files_from entries r = []) := by
  refine ⟨?_, ?_, ?_⟩
  · intro e
    simp [get_eml_files_from, List.mem_filter]
  · intro e
    simp [get_eml_files_from, List.mem_filter]
  · intro hnone r
    have h1 : List.filter (fun e => matchesEmlPattern e.name) entries = [] :=
      List.filter_eq_nil_iff.mpr (fun e he => by simp [hnone e he])
    have h2 : List.filter (fun e => e.comps.length == 1 && matchesEmlPattern e.name)
        entries = [] :=
      List.filter_eq_nil_iff.mpr (fun e he => by simp [hnone e he])
    cases r <;> simp [get_eml_files_from, h1, h2]

/-- Witness for the C5 amended theorem on a two-entry tree: a matching file
at depth one and a matching file at depth two. -/
theorem discovery_characterization_witness :
    (Entry.mk EntryKind.file ["a.eml"] ∈
      get_eml_files_from [Entry.mk EntryKind.file ["a.eml"],
        Entry.mk EntryKind.file ["sub", "b.eml"]] false ↔
      Entry.mk EntryKind.file ["a.eml"] ∈
        [Entry.mk EntryKind.file ["a.eml"], Entry.mk EntryKind.file ["sub", "b.eml"]] ∧
      (Entry.mk EntryKind.file ["a.eml"]).comps.length = 1 ∧
      matchesEmlPattern (Entry.mk EntryKind.file ["a.eml"]).name = true) ∧
    ∀ r, get_eml_files_from [Entry.mk EntryKind.dir ["x"]] r = [] :=
  ⟨(discovery_characterization _).1 _,
   (discovery_characterization _).2.2 (by decide)⟩

/-- C6: supplying both source and files is rejected by argument validation
before any file is processed (the run produces no events); whenever parsing
succeeds the two modes were not both supplied; and when a non-empty files
list is supplied, exactly that list is the processed file set — the
directory scan does not contribute. -/
theorem source_files_mutually_exclusive {E : Type} (srcArg : Option String) (recArg : Bool)
    (filesArg : Option (List String)) (destArg : Option String) (cwd : String)
    (discover : String → Bool → List String)
    (extract : String → List Event × Option E) :
    (srcArg.isSome = true → filesArg.isSome = true →
      main_run srcArg recArg filesArg destArg cwd discover extract =
        ([], some (Except.error "argument -f/--files: not allowed with argument -s/--source"))) ∧
    (∀ args, parse_arguments srcArg recArg filesArg destArg cwd = Except.ok args →
      ¬(srcArg.isSome = true ∧ filesArg.isSome = true)) ∧
    (∀ fl, filesArg = some fl → fl ≠ [] →
      ∀ args, parse_arguments srcArg recArg filesArg destArg cwd = Except.ok args →
        args.files = some fl ∧
        resolve_eml_files args.files (discover args.source args.recursive) = fl) := by
  refine ⟨?_, ?_, ?_⟩
  · intro h1 h2
    simp [main_run, parse_arguments, h1, h2]
  · rintro args hok ⟨h1, h2⟩
    simp [parse_arguments, h1, h2] at hok
  · intro fl hfl hne args hok
    rw [parse_arguments] at hok
    split at hok
    · exact absurd hok (by simp)
    · rw [Except.ok.injEq] at hok
      subst hok
      subst hfl
      refine ⟨rfl, ?_⟩
      cases fl with
      | nil => exact absurd rfl hne
      | cons x xs => simp [resolve_eml_files]

/-- Witness for C6: both modes supplied is an error before processing;
a files-only invocation processes exactly the given list. -/
theorem source_files_mutually_exclusive_witness :
    main_run (some "dir") false (some ["a.eml"]) none "." (fun _ _ => [])
        extractOutcome =
      ([], some (Except.error "argument -f/--files: not allowed with argument -s/--source")) ∧
    ∀ args, parse_arguments none false (some ["a.eml"]) none "." = Except.ok args →
      args.files = some ["a.eml"] ∧
      resolve_eml_files args.files ((fun _ _ => ([] : List String)) args.source args.recursive) =
        ["a.eml"] :=
  ⟨(source_files_mutually_exclusive (some "dir") false (some ["a.eml"]) none "."
      (fun _ _ => []) extractOutcome).1 rfl rfl,
   fun args hok =>
     (source_files_mutually_exclusive (E := Nat) none false (some ["a.eml"]) none "."
       (fun _ _ => []) extractOutcome).2.2 ["a.eml"] rfl (by decide) args hok⟩

theorem main_loop_cons {E : Type} (extract : String → List Event × Option E)
    (g : String) (L : List String) :
    main_loop extract (g :: L) =
      (match (extract g).2 with
      | some e => ((extract g).1, some e)
      | none => ((extract g).1 ++ (main_loop extract L).1, (main_loop extract L).2)) := rfl

theorem main_loop_cons_some {E : Type} (extract : String → List Event × Option E)
    {g : String} (L : List String) {e : E} (hg : (extract g).2 = some e) :
    main_loop extract (g :: L) = ((extract g).1, some e) := by
  rw [main_loop_cons, hg]

theorem main_loop_cons_none {E : Type} (extract : String → List Event × Option E)
    {g : String} (L : List String) (hg : (extract g).2 = none) :
    main_loop extract (g :: L) =
      ((extract g).1 ++ (main_loop extract L).1, (main_loop extract L).2) := by
  rw [main_loop_cons, hg]

/-- C7: the first per-file error aborts the whole run — the trace is the
traces of the earlier files plus the failing file only, nothing after the
failing file is processed, there is no retry, and the Done line is printed
exactly when every file in the queue returned without an exception. -/
theorem first_extractor_error_aborts_run {E : Type} (extract : String → List Event × Option E)
    (hdone : ∀ g, Event.done ∉ (extract g).1) :
    (∀ pre (f : String) post e, (∀ g ∈ pre, (extract g).2 = none) → (extract f).2 = some e →
      main_loop extract (pre ++ f :: post) =
        ((pre.map fun g => (extract g).1).flatten ++ (extract f).1, some e) ∧
      Event.done ∉ (main_loop extract (pre ++ f :: post)).1) ∧
    (∀ files, Event.done ∈ (main_loop extract files).1 ↔ ∀ g ∈ files, (extract g).2 = none) := by
  constructor
  · intro pre
    induction pre with
    | nil =>
      intro f post e hpre hf
      rw [List.nil_append, main_loop_cons_some extract post hf]
      exact ⟨by simp, hdone f⟩
    | cons g rest ih =>
      intro f post e hpre hf
      have hg : (extract g).2 = none := hpre g (List.mem_cons_self g rest)
      have hrest : ∀ x ∈ rest, (extract x).2 = none :=
        fun x hx => hpre x (List.mem_cons_of_mem _ hx)
      obtain ⟨ih1, ih2⟩ := ih f post e hrest hf
      rw [ih1] at ih2
      rw [List.cons_append, main_loop_cons_none extract _ hg, ih1]
      constructor
      · simp [List.append_assoc]
      · intro hmem
        rcases List.mem_append.mp hmem with h | h
        · exact hdone g h
        · exact ih2 h
  · intro files
    induction files with
    | nil =>
      simp only [main_loop]
      constructor
      · intro _ x hx
        exact absurd hx (List.not_mem_nil x)
      · intro _
        exact List.mem_singleton.mpr rfl
    | cons g rest ih =>
      rcases hg : (extract g).2 with _ | e
      · rw [main_loop_cons_none extract rest hg]
        constructor
        · intro h
          rcases List.mem_append.mp h with h | h
          · exact absurd h (hdone g)
          · intro x hx
            rcases List.mem_cons.mp hx with rfl | hx
            · exact hg
            · exact ih.mp h x hx
        · intro hall
          exact List.mem_append.mpr
            (Or.inr (ih.mpr fun x hx => hall x (List.mem_cons_of_mem _ hx)))
      · rw [main_loop_cons_some extract rest hg]
        constructor
        · intro h
          exact absurd h (hdone g)
        · intro hall
          have h2 := hall g (List.mem_cons_self g rest)
          rw [hg] at h2
          exact absurd h2 (by simp)

/-- Witness for C7: three queued files where the middle one raises error 7:
only the first two banners appear and Done is absent. -/
theorem first_extractor_error_aborts_run_witness :
    main_loop extractOutcome ["a.eml", "b.eml", "c.eml"] =
      ([Event.processing "a.eml", Event.processing "b.eml"], some 7) ∧
    Event.done ∉ (main_loop extractOutcome ["a.eml", "b.eml", "c.eml"]).1 := by
  have h := (first_extractor_error_aborts_run extractOutcome
      (fun g => by simp [extractOutcome])).1
    ["a.eml"] "b.eml" ["c.eml"] 7 (by decide) (by decide)
  exact ⟨h.1.trans (by decide), h.2⟩

/-- C8: the destination directory is created (via the idempotent mkdir
call) only in the branch that immediately writes an attachment, so a run
that saves nothing never calls mkdir and leaves the filesystem slice —
destination-existence flag included — exactly as it was. -/
theorem destination_created_only_when_writing (file : String) (msg : Message)
    (rand : Nat → List Nat) (answers : Nat → String) (fs : FS) :
    ((∀ n, Event.saving n ∉ (extract_attachments file msg rand answers fs).2) →
      (extract_attachments file msg rand answers fs).1 = fs ∧
      Event.mkdirCall ∉ (extract_attachments file msg rand answers fs).2) ∧
    (Event.mkdirCall ∈ (extract_attachments file msg rand answers fs).2 →
      ∃ n, Event.saving n ∈ (extract_attachments file msg rand answers fs).2) := by
  simp only [extract_attachments]
  split
  · exact ⟨fun _ => ⟨rfl, by simp⟩, by simp⟩
  · constructor
    · intro hno
      have hno2 : ∀ n, Event.saving n ∉
          (process_attachments fs (msg.attachments_iter.filter Part.is_attachment)
            rand 0 answers 0).2 := by
        intro n hn
        exact hno n (by simp [hn])
      obtain ⟨h1, h2⟩ := (process_attachments_no_saving
        (msg.attachments_iter.filter Part.is_attachment) fs rand 0 answers 0).1 hno2
      exact ⟨h1, by simp [List.mem_cons, h2]⟩
    · intro hmk
      simp only [List.mem_cons] at hmk
      rcases hmk with h | h
      · exact absurd h (by simp)
      · obtain ⟨n, hn⟩ := (process_attachments_no_saving
          (msg.attachments_iter.filter Part.is_attachment) fs rand 0 answers 0).2 h
        exact ⟨n, by simp [hn]⟩

/-- Witness for C8: the nameless-attachment message writes nothing, and the
destination directory is not created. -/
theorem destination_created_only_when_writing_witness :
    (extract_attachments "msg.eml" msgNoName randTen ansNo fs0).1 = fs0 ∧
    Event.mkdirCall ∉ (extract_attachments "msg.eml" msgNoName randTen ansNo fs0).2 :=
  (destination_created_only_when_writing "msg.eml" msgNoName randTen ansNo fs0).1
    (fun n h => by
      have ht : (extract_attachments "msg.eml" msgNoName randTen ansNo fs0).2 =
          [Event.processing "msg.eml"] := by decide
      rw [ht] at h
      simp at h)

/-- C9: the name shown by the overwrite prompt is always the freshly
generated token filename — the drawn hex token concatenated with the
original extension — never the original filename of the attachment itself. -/
theorem prompt_displays_generated_name (file : String) (msg : Message)
    (rand : Nat → List Nat) (answers : Nat → String) (fs : FS) (n ans : String)
    (hmem : Event.promptOverwrite n ans ∈ (extract_attachments file msg rand answers fs).2) :
    ∃ p ∈ msg.attachments_iter, p.is_attachment = true ∧
      ∃ F, truthyFilename p.filename = some F ∧
      ∃ i, n = token_hex (rand i) ++ (splitext F).2 := by
  simp only [extract_attachments] at hmem
  split at hmem
  · simp at hmem
  · simp only [List.mem_cons] at hmem
    rcases hmem with h | h
    · exact absurd h (by simp)
    · obtain ⟨p, hp, F, hF, i, hEq⟩ := process_attachments_name_spec
        (msg.attachments_iter.filter Part.is_attachment) fs rand 0 answers 0 _ h n rfl
      rw [List.mem_filter] at hp
      exact ⟨p, hp.1, hp.2, F, hF, i, hEq⟩

/-- Witness for C9: a colliding destination makes the prompt fire; the
displayed name is the token name, not report.pdf. -/
theorem prompt_displays_generated_name_witness :
    Event.promptOverwrite "00010203040506070809.pdf" "n" ∈
      (extract_attachments "msg.eml" msgReport randTen ansNo fsCollide).2 ∧
    ("00010203040506070809.pdf" : String) ≠ "report.pdf" ∧
    ∃ p ∈ msgReport.attachments_iter, p.is_attachment = true ∧
      ∃ F, truthyFilename p.filename = some F ∧
      ∃ i, "00010203040506070809.pdf" = token_hex (randTen i) ++ (splitext F).2 :=
  ⟨by decide, by decide,
   prompt_displays_generated_name "msg.eml" msgReport randTen ansNo fsCollide
     "00010203040506070809.pdf" "n" (by decide)⟩

/-- C10: the target filename is the token concatenated verbatim with the
`splitext` extension of the original name — the characters of the extension
appear unchanged after the token — and it depends on the original name only
through that extension, so the alphanumeric-filtered variant computed on
line 25 never influences it. -/
theorem extension_used_verbatim_filter_discarded (tok name : String) :
    targetFilename tok name = tok ++ (splitext name).2 ∧
    (targetFilename tok name).data.drop tok.data.length = (splitext name).2.data ∧
    ∀ other, (splitext other).2 = (splitext name).2 →
      targetFilename tok other = targetFilename tok name := by
  refine ⟨targetFilename_eq tok name, ?_, ?_⟩
  · rw [targetFilename_eq]
    show (tok.data ++ (splitext name).2.data).drop tok.data.length = _
    exact List.drop_left _ _
  · intro other hext
    rw [targetFilename_eq, targetFilename_eq, hext]

/-- Witness for C10: two names sharing only the .pdf extension map to the
same target; the filtered variant of report.pdf (reportpdf) is nowhere. -/
theorem extension_used_verbatim_filter_discarded_witness :
    targetFilename "00010203040506070809" "report.pdf" =
      "00010203040506070809" ++ (splitext "report.pdf").2 ∧
    targetFilename "00010203040506070809" "we!rd name&.pdf" =
      targetFilename "00010203040506070809" "report.pdf" :=
  ⟨(extension_used_verbatim_filter_discarded "00010203040506070809" "report.pdf").1,
   (extension_used_verbatim_filter_discarded "00010203040506070809" "report.pdf").2.2
     "we!rd name&.pdf" (by decide)⟩

end Theorems

end EmlExtractor
